import Mathlib

/-!
A shallow embedding of the dream-warrior training engine.

The embedding covers, translated from the repository sources:
- dreamwarrior/dream_env.py: DreamEnv.step (action translation, frame-skip
  repetition, flicker suppression by max of the last two frames, the 4-frame
  state buffer), DreamEnv.reset (episode counter and recording path policy),
  DreamEnv.get_state, and the state-buffer pre-fill done in the constructor.
- dreamwarrior/models/dqn_model.py: DQN_Model.optimize_model (early return on
  an underfull replay memory, the temporal-difference target built with the
  non-final mask, the Huber loss, and the Python return value of the method).
- dreamwarrior/trainers/dqn_trainer.py: the exploration constants,
  DQNTrainer.training_select_action and the steps_done bookkeeping of the
  training loop.

The external emulator (gym-retro), the tensor transforms and the autograd
machinery are treated as opaque collaborators: the emulator is a state type E
together with a step function and a frame renderer, a processed frame is a
flat list of rationals, and the gradient update applied by the optimizer is
an opaque function of the sampled batch.
-/

set_option linter.unusedVariables false

/-! ## Container helpers (collections.deque and torch primitives) -/

/-- Python collections.deque append under a maxlen bound: appending to a full
deque evicts elements from the left so that at most maxlen remain. -/
def dequePush {α : Type} (maxlen : Nat) (xs : List α) (x : α) : List α :=
  let ys := xs ++ [x]
  if maxlen < ys.length then ys.drop (ys.length - maxlen) else ys

/-- The suffix consisting of at most the last two elements of a list. -/
def lastTwo {α : Type} : List α → List α
  | a :: b :: c :: t => lastTwo (b :: c :: t)
  | l => l

/-- Element-wise maximum over a stack of equally shaped frames, as computed by
torch.stack(frames).max(0)[0]. -/
def stackMax : List (List ℚ) → List ℚ
  | [] => []
  | [f] => f
  | f :: g :: t => List.zipWith max f (stackMax (g :: t))

/-- A length n vector of zeros with a single 1 written at position i, as built
by np.zeros(num_buttons) followed by the assignment retro_action[i] = 1. -/
def oneHot (n i : Nat) : List Nat :=
  (List.range n).map (fun j => if j = i then 1 else 0)

/-- Greatest entry of a list of rationals (torch max over the action axis).
The empty case yields 0; it never arises for a real Q row. -/
def listMax : List ℚ → ℚ
  | [] => 0
  | x :: xs => xs.foldl max x

/-- Position of the first occurrence of an element in a list, as computed by
the Python list.index method. The out-of-range value for an absent element is
never reached by the embedded code, which tests membership first. -/
def listIndex {α : Type} [DecidableEq α] (a : α) : List α → Nat
  | [] => 0
  | b :: l => if b = a then 0 else listIndex a l + 1

/-! ## DreamEnv (dreamwarrior/dream_env.py) -/

/-- Result of one tick of the underlying RetroEnv step: the successor emulator
state together with the reward, the done flag and the info value. -/
structure RetroTick (E I : Type) where
  emu : E
  reward : ℚ
  done : Bool
  info : I

/-- The static data of a DreamEnv instance: the configured frame skip, the
full button list of the emulator (entries may be none, for unused pads), the
reduced dream_buttons list (with a trailing none appended at construction when
a game configuration supplies actions), the watching flag, and the opaque
emulator collaborator (its step function and the processed-frame renderer
standing for get_frame, which renders, grayscales, resizes and normalizes). -/
structure DreamEnvCfg (E I : Type) where
  frame_skip : Nat
  buttons : List (Option String)
  dream_buttons : List (Option String)
  watching : Bool
  emuStep : E → List Nat → RetroTick E I
  getFrame : E → List ℚ

/-- The mutable attributes of a DreamEnv instance that the embedded methods
touch: the emulator state, the frame counter (initialized to 1), the episode
counter (initialized to 1) and the 4-frame state buffer, oldest first. -/
structure DreamEnvState (E : Type) where
  emu : E
  frame : Nat
  episode : Nat
  state_buffer : List (List ℚ)
deriving DecidableEq

/-- What DreamEnv.step returns: the updated environment together with the
stacked state, the accumulated reward, the done flag and the info value. -/
structure StepResult (E I : Type) where
  env : DreamEnvState E
  state : List ℚ
  total_reward : ℚ
  done : Bool
  info : Option I
deriving DecidableEq

/-- Accumulator of the frame-skip loop inside DreamEnv.step: the emulator
state, the frame counter, the reward total, the done flag and the maxlen-2
frame_buffer deque. -/
structure LoopResult (E : Type) where
  emu : E
  frame : Nat
  total_reward : ℚ
  done : Bool
  frame_buffer : List (List ℚ)
deriving DecidableEq

/-- Lines 130-138 of dream_env.py: look the index up in dream_buttons, raise
ValueError when the name is not among the environment buttons, otherwise
translate it, via buttons.index, into a one-hot full button mask. An index
outside dream_buttons raises Python IndexError before that check. -/
def translateAction {E I : Type} (cfg : DreamEnvCfg E I) (action : Nat) :
    Except String (List Nat) :=
  match cfg.dream_buttons[action]? with
  | none => .error "IndexError: list index out of range"
  | some action_name =>
    if action_name ∈ cfg.buttons then
      .ok (oneHot cfg.buttons.length (listIndex action_name cfg.buttons))
    else
      .error "Invalid action"

/-- The frame-skip loop of DreamEnv.step (lines 145-156): each iteration
increments the frame counter, steps the emulator with the translated mask,
adds the reward, appends the processed frame to the maxlen-2 frame_buffer and
breaks as soon as the emulator signals done. The info of each tick is
discarded. Rendering under the watching flag has no state effect. -/
def stepLoop {E I : Type} (cfg : DreamEnvCfg E I) (retro_action : List Nat) :
    Nat → E → Nat → ℚ → Bool → List (List ℚ) → LoopResult E
  | 0, emu, fr, total_reward, done, fb => ⟨emu, fr, total_reward, done, fb⟩
  | Nat.succ n, emu, fr, total_reward, _, fb =>
    let t := cfg.emuStep emu retro_action
    let fr2 := fr + 1
    let total2 := total_reward + t.reward
    let fb2 := dequePush 2 fb (cfg.getFrame t.emu)
    if t.done then ⟨t.emu, fr2, total2, true, fb2⟩
    else stepLoop cfg retro_action n t.emu fr2 total2 t.done fb2

/-- DreamEnv.step (lines 127-164): translate the action, run the frame-skip
loop (the explicit frame_skip argument overrides the configured one), take the
element-wise maximum of the frames held by the maxlen-2 frame_buffer (an
empty buffer makes torch.stack raise), push the aggregated frame onto the
maxlen-4 state buffer and return the concatenated state together with the
reward total, the done flag and info, which stays the None it was bound to. -/
def DreamEnv.step {E I : Type} (cfg : DreamEnvCfg E I) (s : DreamEnvState E)
    (action : Nat) (frame_skipArg : Option Nat) : Except String (StepResult E I) :=
  match translateAction cfg action with
  | .error e => .error e
  | .ok retro_action =>
    let frame_skip := frame_skipArg.getD cfg.frame_skip
    let lo := stepLoop cfg retro_action frame_skip s.emu s.frame 0 false []
    match lo.frame_buffer with
    | [] => .error "stack expects a non-empty TensorList"
    | f :: fs =>
      let maxed_frame := stackMax (f :: fs)
      let buf := dequePush 4 s.state_buffer maxed_frame
      .ok ⟨⟨lo.emu, lo.frame, s.episode, buf⟩, buf.flatten, lo.total_reward, lo.done, none⟩

/-- DreamEnv.get_state (lines 88-93): torch.cat over the state buffer, oldest
frame first. -/
def DreamEnv.get_state {E : Type} (s : DreamEnvState E) : List ℚ :=
  s.state_buffer.flatten

/-- Lines 62-67 of the DreamEnv constructor: state_buffer = deque(maxlen=4)
followed by appending the initial processed frame frame_skip times. -/
def initStateBuffer (frame_skip : Nat) (empty_state : List ℚ) : List (List ℚ) :=
  (List.range frame_skip).foldl (fun buf _ => dequePush 4 buf empty_state) []

/-! Specification-side view of the frame-skip loop: the stream of ticks the
emulator would produce under a constant button mask, and the prefix of it
that the loop actually executes (everything up to and including the first
tick whose done flag is set). -/

/-- One tick of the constant-mask tick stream: successor emulator state,
reward, done flag and the processed frame rendered after the tick. -/
structure TickView (E : Type) where
  emu : E
  reward : ℚ
  done : Bool
  frame : List ℚ
deriving DecidableEq

/-- The first n ticks the emulator produces from a given state when stepped
repeatedly with one and the same button mask. -/
def ticks {E I : Type} (cfg : DreamEnvCfg E I) (mask : List Nat) :
    E → Nat → List (TickView E)
  | _, 0 => []
  | emu, Nat.succ n =>
    let t := cfg.emuStep emu mask
    ⟨t.emu, t.reward, t.done, cfg.getFrame t.emu⟩ :: ticks cfg mask t.emu n

/-- The ticks actually executed: the longest prefix that stops immediately
after the first tick with the done flag set. -/
def executedTicks {E : Type} : List (TickView E) → List (TickView E)
  | [] => []
  | t :: ts => if t.done then [t] else t :: executedTicks ts

/-- Sum of the per-tick rewards of a list of ticks. -/
def sumRewards {E : Type} (l : List (TickView E)) : ℚ :=
  (l.map (fun t => t.reward)).sum

/-- The frames rendered by a list of ticks, in order. -/
def framesOf {E : Type} (l : List (TickView E)) : List (List ℚ) :=
  l.map (fun t => t.frame)

/-- Done flag of the last tick of a list, with a default for the empty list. -/
def lastDoneD {E : Type} (d : Bool) (l : List (TickView E)) : Bool :=
  l.getLast?.elim d (fun t => t.done)

/-- Emulator state after the last tick of a list, with a default. -/
def lastEmuD {E : Type} (d : E) (l : List (TickView E)) : E :=
  l.getLast?.elim d (fun t => t.emu)

/-! ## DreamEnv.reset (dream_env.py lines 95-122) -/

/-- The collaborators DreamEnv.reset calls on the emulator, all opaque: the
saved initial state, em.set_state, em.set_button_mask with a zero mask per
player, em.step, the optional recording directory movie_path, the adapter
name used in the recording file name, record_movie, the movie replay flag and
its step, data.reset, data.update_ram and the observation update. -/
structure ResetOps (E Obs : Type) where
  initial_state : Option E
  set_state : E → E → E
  players : Nat
  set_button_mask : E → Nat → E
  em_step : E → E
  movie_path : Option String
  name : String
  record_movie : E → String → E
  has_movie : Bool
  movie_step : E → E
  data_reset : E → E
  update_ram : E → E
  update_obs : E → Obs

/-- Zero-padded five-digit rendering of a number, as by the format %05d. -/
def pad5 (n : Nat) : String :=
  let s := toString n
  String.mk (List.replicate (5 - s.length) '0') ++ s

/-- DreamEnv.reset: restore the initial state when one is saved, zero the
button mask of every player, tick the emulator once, and, only when a
movie_path is configured, open a recording named from the adapter name and
the episode counter and increment that counter; then step the replayed movie
when one is loaded, reset the game-state tracking, refresh the RAM view and
return the updated observation. The first component of the result is the
episode counter after the call. -/
def DreamEnv.reset {E Obs : Type} (ops : ResetOps E Obs) (episode : Nat)
    (emu : E) : Nat × E × Obs :=
  let emu1 := match ops.initial_state with
    | some st => ops.set_state emu st
    | none => emu
  let emu2 := (List.range ops.players).foldl (fun e p => ops.set_button_mask e p) emu1
  let emu3 := ops.em_step emu2
  let next := match ops.movie_path with
    | some movie_path =>
      (ops.record_movie emu3
        (movie_path ++ "/" ++ ops.name ++ "-recordings/" ++ ops.name ++ "-"
          ++ pad5 episode ++ ".bk2"),
       episode + 1)
    | none => (emu3, episode)
  let emu5 := if ops.has_movie then ops.movie_step next.1 else next.1
  let emu6 := ops.update_ram (ops.data_reset emu5)
  (next.2, emu6, ops.update_obs emu6)

/-! ## DQN_Model.optimize_model (dreamwarrior/models/dqn_model.py) -/

/-- The Transition namedtuple. A state is abstract; the action is the index
that was taken; next_state is None exactly when the transition ended an
episode; the reward is a scalar. -/
structure Transition (S : Type) where
  state : S
  action : Nat
  next_state : Option S
  reward : ℚ
deriving DecidableEq

/-- Boolean-mask scatter as performed by next_state_values[non_final_mask] =
values: positions where the mask is set receive the successive values, the
rest keep the zero they were initialized with. -/
def maskedScatter : List Bool → List ℚ → List ℚ
  | [], _ => []
  | true :: ms, v :: vs => v :: maskedScatter ms vs
  | true :: ms, [] => 0 :: maskedScatter ms []
  | false :: ms, vs => 0 :: maskedScatter ms vs

/-- Lines 63-84 of dqn_model.py: a zero vector of batch length whose entries
at the non-final mask are overwritten, in order, with the target-network
maximum action values of the non-final next states. -/
def nextStateValues {S : Type} (targetQ : S → List ℚ)
    (batch : List (Transition S)) : List ℚ :=
  maskedScatter (batch.map (fun t => t.next_state.isSome))
    ((batch.filterMap (fun t => t.next_state)).map (fun s => listMax (targetQ s)))

/-- Line 86: expected_state_action_values = next_state_values * gamma +
reward_batch, element-wise over the batch. -/
def expectedStateActionValues {S : Type} (targetQ : S → List ℚ) (gamma : ℚ)
    (batch : List (Transition S)) : List ℚ :=
  List.zipWith (fun v r => v * gamma + r)
    (nextStateValues targetQ batch) (batch.map (fun t => t.reward))

/-- Line 76: the policy-network output row of each state, gathered at the
action that was taken. -/
def stateActionValues {S : Type} (policyQ : S → List ℚ)
    (batch : List (Transition S)) : List ℚ :=
  batch.map (fun t => (policyQ t.state).getD t.action 0)

/-- The per-element Huber kernel of F.smooth_l1_loss with beta 1. -/
def huber (d : ℚ) : ℚ :=
  if |d| < 1 then d ^ 2 / 2 else |d| - 1 / 2

/-- F.smooth_l1_loss with mean reduction over the element-wise Huber kernel
of the differences. -/
def smooth_l1_loss (input target : List ℚ) : ℚ :=
  (List.zipWith (fun x y => huber (x - y)) input target).sum / (input.length : ℚ)

/-- Everything observable about one optimize_model call: the two network
parameter vectors after the call, whether memory.sample was invoked, the
Huber loss that was computed inside the call (none when control returned
before reaching it) and the Python return value of the method. -/
structure OptimizeResult (P : Type) where
  policy_net : P
  target_net : P
  sampled : Bool
  loss : Option ℚ
  returned : Option ℚ
deriving DecidableEq

/-- DQN_Model.optimize_model (lines 54-96). Qf reads the per-state Q row off
a parameter vector; gradStep is the opaque composite of loss.backward, the
per-parameter gradient clamp to [-1, 1] and optimizer.step, which touches
only the policy network. When the replay memory holds fewer transitions than
batch_size the method returns at once; otherwise it samples a batch, forms
the gathered state-action values and the expected values from the target
network, computes the Huber loss and performs the gradient step. In both
branches the method body ends without a return expression, so the Python
return value is None. -/
def optimize_model {P S : Type} (Qf : P → S → List ℚ)
    (gradStep : P → List (Transition S) → P) (policy_net target_net : P)
    (memory : List (Transition S)) (sample : Nat → List (Transition S))
    (batch_size : Nat) (gamma : ℚ) : OptimizeResult P :=
  if memory.length < batch_size then
    ⟨policy_net, target_net, false, none, none⟩
  else
    let transitions := sample batch_size
    let state_action_values := stateActionValues (Qf policy_net) transitions
    let expected_state_action_values :=
      expectedStateActionValues (Qf target_net) gamma transitions
    let loss := smooth_l1_loss state_action_values expected_state_action_values
    ⟨gradStep policy_net transitions, target_net, true, some loss, none⟩

/-! ## DQNTrainer (dreamwarrior/trainers/dqn_trainer.py) -/

/-- Module constant BATCH_SIZE. -/
def BATCH_SIZE : Nat := 32

/-- Module constant GAMMA. -/
def GAMMA : ℚ := 999 / 1000

/-- Module constant EPS_START. -/
def EPS_START : ℚ := 9 / 10

/-- Module constant EPS_END. -/
def EPS_END : ℚ := 1 / 20

/-- Module constant FRAME_SKIP. -/
def FRAME_SKIP : Nat := 4

/-- The epsilon threshold of training_select_action, with the transcendental
exp(-steps_done / EPS_DECAY) factor abstracted as expf. -/
def eps_threshold (expf : Nat → ℚ) (steps_done : Nat) : ℚ :=
  EPS_END + (EPS_START - EPS_END) * expf steps_done

/-- DQNTrainer.training_select_action (lines 68-80): draw the exploration
sample, compute the epsilon threshold from the steps_done argument, increment
the local steps_done binding (a Python int parameter, so the increment is
invisible to the caller) and return either the greedy or the random action.
Only the chosen action is returned. -/
def training_select_action {S : Type} (expf : Nat → ℚ) (select_action : S → Nat)
    (random_action : Nat) (sample : ℚ) (state : S) (steps_done : Nat) : Nat :=
  let t := eps_threshold expf steps_done
  let steps_done2 := steps_done + 1
  if sample > t then select_action state else random_action

/-- The loop-carried variables of the training step loop that matter to the
exploration schedule: the steps_done counter and previous_action. -/
structure TrainVars (S : Type) where
  steps_done : Nat
  previous_action : Nat
deriving DecidableEq

/-- One iteration t of the step loop of DQNTrainer.train (lines 118-123):
every FRAME_SKIP-th iteration takes a fresh decision through
training_select_action, the others hold the previous action. The train method
never reassigns its steps_done variable, so the counter field is carried over
unchanged in both branches. -/
def trainIter {S : Type} (expf : Nat → ℚ) (select_action : S → Nat)
    (random_action : Nat) (samples : Nat → ℚ) (states : Nat → S)
    (v : TrainVars S) (t : Nat) : TrainVars S :=
  if t % FRAME_SKIP = 0 then
    ⟨v.steps_done,
     training_select_action expf select_action random_action (samples t) (states t) v.steps_done⟩
  else
    ⟨v.steps_done, v.previous_action⟩

/-- The loop variables after the first T iterations of the step loop of one
episode: steps_done starts at 0 (line 106) and previous_action is seeded by
the decision taken just before the loop (line 116). -/
def trainVarsAfter {S : Type} (expf : Nat → ℚ) (select_action : S → Nat)
    (random_action : Nat) (samples : Nat → ℚ) (states : Nat → S) (state0 : S)
    (T : Nat) : TrainVars S :=
  (List.range T).foldl (trainIter expf select_action random_action samples states)
    ⟨0, training_select_action expf select_action random_action (samples 0) state0 0⟩

/-! ## Concrete instantiations used to evaluate the embedded code -/

/-- The NES button layout gym-retro reports for the packaged game: nine pads,
one of them unused (none). The trailing no-op entry of dream_buttons
translates to this unused pad. -/
def nesButtons : List (Option String) :=
  [some "B", none, some "SELECT", some "START", some "UP", some "DOWN",
   some "LEFT", some "RIGHT", some "A"]

/-- A DreamEnv over a trivial emulator with the NES buttons and a reduced
action list holding one real move, one name unknown to the emulator and the
trailing no-op entry appended at construction. -/
def cfgW : DreamEnvCfg Unit Nat :=
  ⟨4, nesButtons, [some "LEFT", some "BOGUS", none], false,
   fun _ _ => ⟨(), 1, false, 0⟩, fun _ => [0]⟩

/-- A freshly reset state for cfgW. -/
def sW : DreamEnvState Unit := ⟨(), 1, 1, [[0], [0], [0], [0]]⟩

/-- A DreamEnv over a counting emulator: tick k yields reward k, renders the
frame [k] and signals done on the third tick. -/
def cfgT : DreamEnvCfg Nat Nat :=
  ⟨4, [some "A"], [some "A"], false,
   fun e _ => ⟨e + 1, ((e + 1 : Nat) : ℚ), e + 1 == 3, 7⟩,
   fun e => [((e : Nat) : ℚ)]⟩

/-- A state for cfgT with a full 4-frame buffer. -/
def sT : DreamEnvState Nat := ⟨0, 1, 1, [[10], [11], [12], [13]]⟩

/-- The value DreamEnv.step returns for cfgT from sT with 5 requested ticks:
the done signal of the third tick stops the loop, the reward total is
1 + 2 + 3, the aggregated frame is max([2], [3]) = [3] and the oldest buffer
entry [10] is evicted. -/
def rT : StepResult Nat Nat :=
  ⟨⟨3, 4, 1, [[11], [12], [13], [3]]⟩, [11, 12, 13, 3], 6, true, none⟩

/-- Reset collaborators over a trivial emulator, recording disabled. -/
def opsNoRecord : ResetOps Unit Unit :=
  ⟨none, fun e _ => e, 1, fun e _ => e, fun e => e, none, "x",
   fun e _ => e, false, fun e => e, fun e => e, fun e => e, fun _ => ()⟩

/-- Reset collaborators over a trivial emulator, recording enabled. -/
def opsRecord : ResetOps Unit Unit :=
  ⟨none, fun e _ => e, 1, fun e _ => e, fun e => e, some "m", "x",
   fun e _ => e, false, fun e => e, fun e => e, fun e => e, fun _ => ()⟩

/-- A one-action Q function over scalar parameters: the single Q value of
every state is the parameter itself. -/
def QfC : ℚ → Nat → List ℚ := fun p _ => [p]

/-- An opaque stand-in for the backward/clamp/optimizer-step composite. -/
def gradC : ℚ → List (Transition Nat) → ℚ := fun p _ => p + 1

/-- A replay memory holding a single terminal transition with reward 5. -/
def memC : List (Transition Nat) := [⟨0, 0, none, 5⟩]

/-! ## Helper lemmas about the container operations -/

/-- Collapsing an inner lastTwo on the left of an append does not change the
last two elements. -/
theorem lastTwo_lastTwo_append {α : Type} :
    ∀ (m l : List α), lastTwo (lastTwo m ++ l) = lastTwo (m ++ l)
  | [], _ => rfl
  | [_], _ => rfl
  | [_, _], _ => rfl
  | _ :: b :: c :: t, l => lastTwo_lastTwo_append (b :: c :: t) l

/-- Appending to a maxlen-2 deque keeps exactly the last two elements. -/
theorem dequePush_two_eq {α : Type} :
    ∀ (b : List α) (x : α), dequePush 2 b x = lastTwo (b ++ [x])
  | [], _ => rfl
  | [_], _ => rfl
  | [_, _], _ => rfl
  | a :: b :: c :: t, x => by
    have ih := dequePush_two_eq (b :: c :: t) x
    show dequePush 2 (a :: b :: c :: t) x = lastTwo ((b :: c :: t) ++ [x])
    rw [← ih]
    simp only [dequePush, List.cons_append, List.nil_append, List.length_cons,
      List.length_append, List.length_nil]
    rw [if_pos (by omega), if_pos (by omega)]
    have harith : t.length + 1 + 1 + 1 + 1 - 2 = (t.length + 1 + 1 + 1 - 2) + 1 := by omega
    rw [harith, List.drop_succ_cons]

/-- Folding appends into a maxlen-2 deque yields the last two of the whole
frame sequence. -/
theorem foldl_dequePush_two {α : Type} :
    ∀ (l m : List α), l.foldl (dequePush 2) (lastTwo m) = lastTwo (m ++ l)
  | [], m => by simp
  | x :: l, m => by
    have h1 : dequePush 2 (lastTwo m) x = lastTwo (m ++ [x]) := by
      rw [dequePush_two_eq (lastTwo m) x, lastTwo_lastTwo_append]
    calc (x :: l).foldl (dequePush 2) (lastTwo m)
        = l.foldl (dequePush 2) (dequePush 2 (lastTwo m) x) := rfl
      _ = l.foldl (dequePush 2) (lastTwo (m ++ [x])) := by rw [h1]
      _ = lastTwo ((m ++ [x]) ++ l) := foldl_dequePush_two l (m ++ [x])
      _ = lastTwo (m ++ x :: l) := by simp

/-- Starting the maxlen-2 deque empty yields the last two of the inputs. -/
theorem foldl_dequePush_two_nil {α : Type} (l : List α) :
    l.foldl (dequePush 2) [] = lastTwo l := by
  simpa using foldl_dequePush_two l []

/-- The last two of a nonempty list are nonempty. -/
theorem lastTwo_ne_nil {α : Type} :
    ∀ (l : List α), l ≠ [] → lastTwo l ≠ []
  | [], h => absurd rfl h
  | [_], _ => by simp [lastTwo]
  | [_, _], _ => by simp [lastTwo]
  | _ :: b :: c :: t, _ => lastTwo_ne_nil (b :: c :: t) (by simp)

/-- lastTwo holds at most two elements. -/
theorem lastTwo_length_le {α : Type} :
    ∀ (l : List α), (lastTwo l).length ≤ 2
  | [] => by simp [lastTwo]
  | [_] => by simp [lastTwo]
  | [_, _] => by simp [lastTwo]
  | _ :: b :: c :: t => lastTwo_length_le (b :: c :: t)

/-- The last two of a list that ends in a pair are exactly that pair. -/
theorem lastTwo_append_pair {α : Type} (pre : List α) (f g : α) :
    lastTwo (pre ++ [f, g]) = [f, g] := by
  rw [← lastTwo_lastTwo_append]
  rcases h : lastTwo pre with _ | ⟨a, _ | ⟨b, rest⟩⟩
  · rfl
  · rfl
  · rcases rest with _ | ⟨c, rest⟩
    · rfl
    · have hlen := lastTwo_length_le pre
      rw [h] at hlen
      simp at hlen

/-- Appending to a full maxlen-4 deque evicts exactly the oldest element. -/
theorem dequePush_four_full {α : Type} :
    ∀ (buf : List α), buf.length = 4 → ∀ (x : α), dequePush 4 buf x = buf.tail ++ [x]
  | [], h, _ => by simp at h
  | [_], h, _ => by simp at h
  | [_, _], h, _ => by simp at h
  | [_, _, _], h, _ => by simp at h
  | [_, _, _, _], _, _ => rfl
  | _ :: _ :: _ :: _ :: _ :: _, h, _ => by simp at h

/-! ## Helper lemmas about the tick stream -/

/-- Option.elim of getLast? steps over a cons. -/
theorem getLast_elim_cons {α β : Type} (t : α) (l : List α) (d : β) (g : α → β) :
    ((t :: l).getLast?).elim d g = (l.getLast?).elim (g t) g := by
  cases l with
  | nil => rfl
  | cons a l =>
    rw [List.getLast?_cons_cons]
    cases h : (a :: l).getLast? with
    | none => simp at h
    | some b => rfl

/-- The constant-mask tick stream has exactly the requested length. -/
theorem ticks_length {E I : Type} (cfg : DreamEnvCfg E I) (mask : List Nat) :
    ∀ (n : Nat) (emu : E), (ticks cfg mask emu n).length = n
  | 0, _ => rfl
  | Nat.succ n, emu => by
    simp only [ticks, List.length_cons, ticks_length cfg mask n]

/-- A positive number of requested ticks yields a nonempty tick stream. -/
theorem ticks_ne_nil {E I : Type} (cfg : DreamEnvCfg E I) (mask : List Nat)
    (n : Nat) (emu : E) (h : 0 < n) : ticks cfg mask emu n ≠ [] := by
  intro hc
  have := ticks_length cfg mask n emu
  rw [hc] at this
  simp at this
  omega

/-- The executed prefix is never longer than the tick stream. -/
theorem executedTicks_length_le {E : Type} :
    ∀ (l : List (TickView E)), (executedTicks l).length ≤ l.length
  | [] => Nat.le_refl 0
  | t :: ts => by
    by_cases h : t.done
    · simp [executedTicks, h]
    · simpa [executedTicks, h] using executedTicks_length_le ts

/-- When no tick of the stream signals done, all of it is executed. -/
theorem executedTicks_eq_of_no_done {E : Type} :
    ∀ (l : List (TickView E)), (∀ t ∈ l, t.done = false) → executedTicks l = l
  | [], _ => rfl
  | t :: ts, h => by
    have ht := h t (by simp)
    simp only [executedTicks, ht, Bool.false_eq_true, if_false]
    rw [executedTicks_eq_of_no_done ts (fun x hx => h x (by simp [hx]))]

/-- Every executed tick before the last one has an unset done flag: the loop
stops immediately at the first done signal. -/
theorem executedTicks_dropLast_no_done {E : Type} :
    ∀ (l : List (TickView E)), ∀ t ∈ (executedTicks l).dropLast, t.done = false
  | [], t, ht => by simp [executedTicks] at ht
  | a :: ts, t, ht => by
    by_cases h : a.done
    · simp [executedTicks, h] at ht
    · rw [show executedTicks (a :: ts) = a :: executedTicks ts by
        simp [executedTicks, h]] at ht
      cases hX : executedTicks ts with
      | nil => rw [hX] at ht; simp at ht
      | cons b bs =>
        rw [hX, List.dropLast_cons₂] at ht
        rcases List.mem_cons.mp ht with rfl | hmem
        · simpa using h
        · exact executedTicks_dropLast_no_done ts t (by rw [hX]; exact hmem)

/-- The executed prefix of a nonempty tick stream is nonempty. -/
theorem executedTicks_ne_nil {E : Type} :
    ∀ (l : List (TickView E)), l ≠ [] → executedTicks l ≠ []
  | [], h => absurd rfl h
  | t :: ts, _ => by
    by_cases h : t.done <;> simp [executedTicks, h]

/-- The frame-skip loop inside DreamEnv.step is exactly a fold over the
executed prefix of the constant-mask tick stream: the emulator ends in the
state of the last executed tick, the frame counter advances once per executed
tick, the reward total is the sum of the executed rewards, the final done
flag is that of the last executed tick and the frame_buffer accumulates the
executed frames through the maxlen-2 deque. -/
theorem stepLoop_eq {E I : Type} (cfg : DreamEnvCfg E I) (mask : List Nat) :
    ∀ (n : Nat) (emu : E) (fr : Nat) (tot : ℚ) (dn : Bool) (fb : List (List ℚ)),
    stepLoop cfg mask n emu fr tot dn fb =
      ⟨lastEmuD emu (executedTicks (ticks cfg mask emu n)),
       fr + (executedTicks (ticks cfg mask emu n)).length,
       tot + sumRewards (executedTicks (ticks cfg mask emu n)),
       lastDoneD dn (executedTicks (ticks cfg mask emu n)),
       (executedTicks (ticks cfg mask emu n)).foldl
         (fun b t => dequePush 2 b t.frame) fb⟩
  | 0, emu, fr, tot, dn, fb => by
    simp [stepLoop, ticks, executedTicks, lastEmuD, lastDoneD, sumRewards]
  | Nat.succ n, emu, fr, tot, dn, fb => by
    have ih := stepLoop_eq cfg mask n (cfg.emuStep emu mask).emu (fr + 1)
      (tot + (cfg.emuStep emu mask).reward) (cfg.emuStep emu mask).done
      (dequePush 2 fb (cfg.getFrame (cfg.emuStep emu mask).emu))
    simp only [stepLoop, ticks]
    by_cases hd : (cfg.emuStep emu mask).done
    · rw [if_pos hd]
      simp [executedTicks, hd, lastEmuD, lastDoneD, sumRewards]
    · rw [if_neg hd, ih]
      simp only [executedTicks, hd, Bool.false_eq_true, if_false]
      congr 1
      · simp [lastEmuD, getLast_elim_cons]
      · simp only [List.length_cons]
        omega
      · simp only [sumRewards, List.map_cons, List.sum_cons]
        ring
      · simp [lastDoneD, getLast_elim_cons]

/-! ## Helper lemmas about the button-mask translation -/

/-- The one-hot mask has the full button length. -/
theorem oneHot_length (n i : Nat) : (oneHot n i).length = n := by
  simp [oneHot]

/-- The one-hot mask holds a single 1 exactly when the index is in range. -/
theorem oneHot_count (n i : Nat) :
    (oneHot n i).count 1 = if i < n then 1 else 0 := by
  induction n with
  | zero => simp [oneHot]
  | succ n ih =>
    have hsplit : oneHot (n + 1) i
        = oneHot n i ++ [if n = i then 1 else 0] := by
      simp [oneHot, List.range_succ]
    rw [hsplit, List.count_append, ih]
    by_cases h : n = i
    · subst h
      simp [List.count_cons]
    · simp only [h, if_false, List.count_cons, List.count_nil]
      have : ((0 : Nat) == 1) = false := by decide
      split_ifs with h1 h2 h2 <;> simp_all <;> omega

/-- Every entry of the one-hot mask is a 0 or a 1. -/
theorem oneHot_mem (n i : Nat) : ∀ b ∈ oneHot n i, b = 0 ∨ b = 1 := by
  intro b hb
  rw [oneHot] at hb
  simp only [List.mem_map] at hb
  obtain ⟨j, _, rfl⟩ := hb
  by_cases h : j = i <;> simp [h]

/-- list.index of a member is a position inside the list. -/
theorem listIndex_lt_length {α : Type} [DecidableEq α] (a : α) :
    ∀ (l : List α), a ∈ l → listIndex a l < l.length
  | b :: l, h => by
    by_cases hb : b = a
    · simp [listIndex, hb]
    · have hmem : a ∈ l := by
        rcases List.mem_cons.mp h with rfl | hmem
        · exact absurd rfl hb
        · exact hmem
      simpa [listIndex, hb] using listIndex_lt_length a l hmem

/-! ## Helper lemmas about the temporal-difference target -/

/-- The boolean-mask scatter of the per-state values over the non-final mask
is the per-transition map sending terminal entries to the zero they keep. -/
theorem maskedScatter_map {S : Type} (f : S → ℚ) :
    ∀ (batch : List (Transition S)),
    maskedScatter (batch.map (fun t => t.next_state.isSome))
        ((batch.filterMap (fun t => t.next_state)).map f)
      = batch.map (fun t => t.next_state.elim 0 f)
  | [] => rfl
  | t :: ts => by
    cases h : t.next_state with
    | none =>
      simp only [List.map_cons, List.filterMap_cons, h, Option.isSome_none,
        Option.elim_none, maskedScatter]
      exact congrArg (List.cons 0) (maskedScatter_map f ts)
    | some s =>
      simp only [List.map_cons, List.filterMap_cons, h, Option.isSome_some,
        Option.elim_some, maskedScatter]
      exact congrArg _ (maskedScatter_map f ts)

/-- next_state_values, entry by entry: the target-network maximum at the next
state for non-final transitions, the initializing zero for final ones. -/
theorem nextStateValues_eq {S : Type} (targetQ : S → List ℚ)
    (batch : List (Transition S)) :
    nextStateValues targetQ batch
      = batch.map (fun t => t.next_state.elim 0 (fun s => listMax (targetQ s))) :=
  maskedScatter_map (fun s => listMax (targetQ s)) batch

/-! ## Claim theorems -/

/-- C2: whenever the replay memory holds fewer transitions than batch_size,
DQN_Model.optimize_model returns immediately: memory.sample is not invoked,
no loss is computed, the policy-network and target-network parameters are
returned unchanged, and the Python return value is None. -/
theorem optimize_model_insufficient_memory_noop {P S : Type}
    (Qf : P → S → List ℚ) (gradStep : P → List (Transition S) → P)
    (policy_net target_net : P) (memory : List (Transition S))
    (sample : Nat → List (Transition S)) (batch_size : Nat) (gamma : ℚ)
    (h : memory.length < batch_size) :
    optimize_model Qf gradStep policy_net target_net memory sample batch_size gamma
      = ⟨policy_net, target_net, false, none, none⟩ := by
  rw [optimize_model, if_pos h]

/-- Witness for C2: an empty memory against the configured batch size of 32
leaves both parameter vectors untouched and samples nothing. -/
theorem optimize_model_insufficient_memory_noop_witness :
    optimize_model QfC gradC 1 2 ([] : List (Transition Nat)) (fun _ => [])
      BATCH_SIZE GAMMA = ⟨1, 2, false, none, none⟩ :=
  optimize_model_insufficient_memory_noop QfC gradC 1 2 [] (fun _ => [])
    BATCH_SIZE GAMMA (by decide)

/-- C5: the regression target of optimize_model is, per sampled transition,
reward + gamma times the target-network maximum action value at next_state
for non-terminal transitions, and the bare reward (next-state value zero) for
terminal ones. -/
theorem optimize_model_expected_values_spec {S : Type} (targetQ : S → List ℚ)
    (gamma : ℚ) (batch : List (Transition S)) :
    expectedStateActionValues targetQ gamma batch
      = batch.map (fun t =>
          match t.next_state with
          | some s => t.reward + gamma * listMax (targetQ s)
          | none => t.reward) := by
  rw [expectedStateActionValues, nextStateValues_eq]
  induction batch with
  | nil => rfl
  | cons t ts ih =>
    simp only [List.map_cons, List.zipWith_cons_cons, ih]
    congr 1
    cases t.next_state with
    | none => simp
    | some s => simp only [Option.elim_some]; ring

/-- C9 (code bug exhibit): with a sufficient memory, optimize_model samples
the batch, computes the Huber loss (here |1 - 5| - 1/2 = 7/2) and performs
the gradient step, yet the method falls off its end, so its Python return
value is None rather than the loss the spec and the calling trainer (which
formats the returned value with %f) expect. -/
theorem optimize_model_does_not_return_loss :
    optimize_model QfC gradC 1 2 memC (fun _ => memC) 1 GAMMA
      = ⟨2, 2, true, some (7 / 2), none⟩ := by
  rw [optimize_model, if_neg (by decide)]
  simp only [QfC, gradC, memC, stateActionValues, expectedStateActionValues,
    nextStateValues, maskedScatter, smooth_l1_loss, huber, listMax,
    List.map_cons, List.map_nil, List.filterMap_cons, List.filterMap_nil,
    List.zipWith_cons_cons, List.zipWith_nil_right, List.sum_cons,
    List.sum_nil, List.getD, List.length_cons, List.length_nil,
    Option.isSome_none, OptimizeResult.mk.injEq]
  norm_num [GAMMA]

/-- C6 (code bug exhibit): the constructor pre-fills the maxlen-4
state_buffer frame_skip times, so with frame_skip = 2 the buffer holds only
two copies of the initial frame and get_state returns a 2-frame tensor,
contradicting the full-4-frame pre-fill invariant that get_state promises;
with frame_skip = 4 the buffer does hold four identical frames. -/
theorem get_state_prefill_bug :
    (initStateBuffer 2 [(1 : ℚ)]).length = 2
    ∧ DreamEnv.get_state (⟨(), 1, 1, initStateBuffer 2 [(1 : ℚ)]⟩ : DreamEnvState Unit)
        = [1, 1]
    ∧ initStateBuffer 4 [(1 : ℚ)] = [[1], [1], [1], [1]] := by
  decide

/-- C7 (code bug exhibit): training_select_action increments only its local
steps_done binding, and DQNTrainer.train never reassigns its counter, so
after 9 loop iterations (decisions at t = 0, 4, 8 plus the seed decision
before the loop) the counter still reads 0 instead of the 4 the claimed
one-per-decision increment would give, and the epsilon threshold never
decays. -/
theorem trainer_steps_done_never_increments :
    (trainVarsAfter (fun _ => (1 : ℚ)) (fun _ : Nat => 0) 0 (fun _ => 0)
      (fun _ => 0) 0 9).steps_done = 0 := by
  decide

/-- C8 counterexample: with no movie_path configured, DreamEnv.reset leaves
the episode counter unchanged, so reset does not increment it by one in
every configuration. -/
theorem reset_episode_cex :
    ¬ ((DreamEnv.reset opsNoRecord 1 ()).1 = 1 + 1) := by
  decide

/-- C8 (amended): DreamEnv.reset increments the episode counter by exactly
one when a movie_path is configured (the increment sits inside the recording
branch), and leaves it unchanged when movie_path is None. -/
theorem reset_episode_increment {E Obs : Type} (ops : ResetOps E Obs)
    (episode : Nat) (emu : E) :
    (ops.movie_path.isSome = true →
      (DreamEnv.reset ops episode emu).1 = episode + 1)
    ∧ (ops.movie_path = none →
      (DreamEnv.reset ops episode emu).1 = episode) := by
  cases h : ops.movie_path with
  | none => simp [DreamEnv.reset, h]
  | some mp => simp [DreamEnv.reset, h]

/-- Witness for C8: with recording enabled the counter advances from 1 to 2. -/
theorem reset_episode_increment_witness :
    (DreamEnv.reset opsRecord 1 ()).1 = 1 + 1 :=
  (reset_episode_increment opsRecord 1 ()).1 rfl

/-- Closed form of a successful DreamEnv.step: with a translated mask and a
positive tick count, the returned record is determined by the executed prefix
of the constant-mask tick stream. -/
theorem step_ok_eq {E I : Type} (cfg : DreamEnvCfg E I) (s : DreamEnvState E)
    (action : Nat) (fsArg : Option Nat) (mask : List Nat)
    (htr : translateAction cfg action = .ok mask)
    (hn : 0 < fsArg.getD cfg.frame_skip) :
    DreamEnv.step cfg s action fsArg
      = .ok ⟨⟨lastEmuD s.emu
                (executedTicks (ticks cfg mask s.emu (fsArg.getD cfg.frame_skip))),
              s.frame + (executedTicks (ticks cfg mask s.emu (fsArg.getD cfg.frame_skip))).length,
              s.episode,
              dequePush 4 s.state_buffer (stackMax (lastTwo (framesOf
                (executedTicks (ticks cfg mask s.emu (fsArg.getD cfg.frame_skip))))))⟩,
             (dequePush 4 s.state_buffer (stackMax (lastTwo (framesOf
                (executedTicks (ticks cfg mask s.emu (fsArg.getD cfg.frame_skip))))))).flatten,
             sumRewards (executedTicks (ticks cfg mask s.emu (fsArg.getD cfg.frame_skip))),
             lastDoneD false (executedTicks (ticks cfg mask s.emu (fsArg.getD cfg.frame_skip))),
             none⟩ := by
  set n := fsArg.getD cfg.frame_skip with hnn
  set ex := executedTicks (ticks cfg mask s.emu n) with hex
  have hne : ex ≠ [] := executedTicks_ne_nil _ (ticks_ne_nil cfg mask n s.emu hn)
  have hfold : ex.foldl (fun b t => dequePush 2 b t.frame) [] = lastTwo (framesOf ex) := by
    rw [← foldl_dequePush_two_nil, framesOf, List.foldl_map]
  have hfbne : lastTwo (framesOf ex) ≠ [] :=
    lastTwo_ne_nil _ (by simpa [framesOf] using hne)
  obtain ⟨f, fs, hfs⟩ : ∃ f fs, lastTwo (framesOf ex) = f :: fs := by
    cases hc : lastTwo (framesOf ex) with
    | nil => exact absurd hc hfbne
    | cons f fs => exact ⟨f, fs, rfl⟩
  rw [DreamEnv.step, htr]
  dsimp only
  rw [← hnn, stepLoop_eq]
  dsimp only
  rw [← hex, hfold, hfs]
  dsimp only
  rw [zero_add]

/-- C1: for every index into dream_buttons, DreamEnv.step fails with the
invalid-action ValueError exactly when the looked-up name is not among the
environment buttons; when it is (as for the trailing no-op entry, which maps
to the unused none pad of the layout), translation succeeds and produces a
mask of the full button length with exactly one bit set. -/
theorem dream_env_step_invalid_action {E I : Type} (cfg : DreamEnvCfg E I)
    (s : DreamEnvState E) (fsArg : Option Nat) (i : Nat) (name : Option String)
    (h : cfg.dream_buttons[i]? = some name) :
    ((DreamEnv.step cfg s i fsArg = .error "Invalid action") ↔ name ∉ cfg.buttons)
    ∧ (name ∈ cfg.buttons →
        translateAction cfg i
            = .ok (oneHot cfg.buttons.length (listIndex name cfg.buttons))
          ∧ (oneHot cfg.buttons.length (listIndex name cfg.buttons)).length
              = cfg.buttons.length
          ∧ (oneHot cfg.buttons.length (listIndex name cfg.buttons)).count 1 = 1
          ∧ ∀ b ∈ oneHot cfg.buttons.length (listIndex name cfg.buttons),
              b = 0 ∨ b = 1) := by
  by_cases hm : name ∈ cfg.buttons
  · have htr : translateAction cfg i
        = .ok (oneHot cfg.buttons.length (listIndex name cfg.buttons)) := by
      rw [translateAction, h]
      simp [hm]
    refine ⟨⟨fun hs => ?_, fun hn => absurd hm hn⟩,
      fun _ => ⟨htr, oneHot_length _ _, ?_, oneHot_mem _ _⟩⟩
    · rw [DreamEnv.step, htr] at hs
      dsimp only at hs
      split at hs
      · exact absurd (Except.error.inj hs) (by decide)
      · exact absurd hs (by simp)
    · rw [oneHot_count, if_pos (listIndex_lt_length name cfg.buttons hm)]
  · have htr : translateAction cfg i = .error "Invalid action" := by
      rw [translateAction, h]
      simp [hm]
    refine ⟨⟨fun _ => hm, fun _ => ?_⟩, fun hn => absurd hn hm⟩
    rw [DreamEnv.step, htr]

/-- Witness for C1: in the NES layout, index 2 of cfgW is the trailing no-op
entry; it does not raise the invalid-action error and translates to the
one-hot mask of the unused pad at position 1 of the nine buttons. -/
theorem dream_env_step_invalid_action_witness :
    (DreamEnv.step cfgW sW 2 none ≠ .error "Invalid action")
    ∧ translateAction cfgW 2 = .ok [0, 1, 0, 0, 0, 0, 0, 0, 0] := by
  have h := dream_env_step_invalid_action cfgW sW none 2 none rfl
  refine ⟨fun hs => (h.1.mp hs) (by decide), ?_⟩
  exact (h.2 (by decide)).1.trans rfl

/-- C3: a successful DreamEnv.step executes the constant-mask tick stream up
to the requested frame_skip count, stopping immediately at the first done
signal: the returned total_reward is the sum of the rewards of the executed
ticks, the done flag is that of the last executed tick, the frame counter
advances once per executed tick, all executed ticks except possibly the last
have an unset done flag, and when no tick signals done all frame_skip ticks
execute. -/
theorem dream_env_step_frame_skip_reward {E I : Type} (cfg : DreamEnvCfg E I)
    (s : DreamEnvState E) (action : Nat) (fsArg : Option Nat) (mask : List Nat)
    (htr : translateAction cfg action = .ok mask)
    (hn : 0 < fsArg.getD cfg.frame_skip) :
    ∃ r, DreamEnv.step cfg s action fsArg = .ok r
      ∧ r.total_reward
          = sumRewards (executedTicks (ticks cfg mask s.emu (fsArg.getD cfg.frame_skip)))
      ∧ r.done
          = lastDoneD false (executedTicks (ticks cfg mask s.emu (fsArg.getD cfg.frame_skip)))
      ∧ r.env.frame
          = s.frame + (executedTicks (ticks cfg mask s.emu (fsArg.getD cfg.frame_skip))).length
      ∧ (executedTicks (ticks cfg mask s.emu (fsArg.getD cfg.frame_skip))).length
          ≤ fsArg.getD cfg.frame_skip
      ∧ ((∀ t ∈ ticks cfg mask s.emu (fsArg.getD cfg.frame_skip), t.done = false) →
          executedTicks (ticks cfg mask s.emu (fsArg.getD cfg.frame_skip))
            = ticks cfg mask s.emu (fsArg.getD cfg.frame_skip))
      ∧ (∀ t ∈ (executedTicks (ticks cfg mask s.emu (fsArg.getD cfg.frame_skip))).dropLast,
          t.done = false) := by
  refine ⟨_, step_ok_eq cfg s action fsArg mask htr hn, rfl, rfl, rfl, ?_, ?_, ?_⟩
  · calc (executedTicks (ticks cfg mask s.emu (fsArg.getD cfg.frame_skip))).length
        ≤ (ticks cfg mask s.emu (fsArg.getD cfg.frame_skip)).length :=
          executedTicks_length_le _
      _ = fsArg.getD cfg.frame_skip := ticks_length cfg mask _ s.emu
  · exact executedTicks_eq_of_no_done _
  · exact executedTicks_dropLast_no_done _

/-- Witness for C3: for the counting emulator, 5 requested ticks stop at the
done signal of the third, and the reward total is 1 + 2 + 3 = 6. -/
theorem dream_env_step_frame_skip_reward_witness :
    ∃ r, DreamEnv.step cfgT sT 0 (some 5) = .ok r ∧ r.total_reward = 6 := by
  obtain ⟨r, h1, h2, -⟩ :=
    dream_env_step_frame_skip_reward cfgT sT 0 (some 5) [1] rfl (by decide)
  refine ⟨r, h1, h2.trans ?_⟩
  norm_num [ticks, executedTicks, sumRewards, cfgT, sT]

/-- C4: a successful DreamEnv.step aggregates exactly one frame, the
element-wise maximum of the last two frames rendered during the repetition
(the single rendered frame when only one tick ran), pushes it onto the full
4-frame state buffer evicting the oldest entry, and returns the
concatenation of the buffer frames oldest first. -/
theorem dream_env_step_frame_aggregation {E I : Type} (cfg : DreamEnvCfg E I)
    (s : DreamEnvState E) (action : Nat) (fsArg : Option Nat) (mask : List Nat)
    (htr : translateAction cfg action = .ok mask)
    (hn : 0 < fsArg.getD cfg.frame_skip)
    (hb : s.state_buffer.length = 4) :
    ∃ r, DreamEnv.step cfg s action fsArg = .ok r
      ∧ r.env.state_buffer
          = s.state_buffer.tail
            ++ [stackMax (lastTwo (framesOf
                  (executedTicks (ticks cfg mask s.emu (fsArg.getD cfg.frame_skip)))))]
      ∧ r.state
          = (s.state_buffer.tail
            ++ [stackMax (lastTwo (framesOf
                  (executedTicks (ticks cfg mask s.emu (fsArg.getD cfg.frame_skip)))))]).flatten
      ∧ (∀ f0, framesOf (executedTicks (ticks cfg mask s.emu (fsArg.getD cfg.frame_skip)))
            = [f0] →
          stackMax (lastTwo (framesOf
            (executedTicks (ticks cfg mask s.emu (fsArg.getD cfg.frame_skip))))) = f0)
      ∧ (∀ pre f0 g0,
          framesOf (executedTicks (ticks cfg mask s.emu (fsArg.getD cfg.frame_skip)))
            = pre ++ [f0, g0] →
          stackMax (lastTwo (framesOf
            (executedTicks (ticks cfg mask s.emu (fsArg.getD cfg.frame_skip)))))
            = List.zipWith max f0 g0) := by
  refine ⟨_, step_ok_eq cfg s action fsArg mask htr hn,
    dequePush_four_full _ hb _, ?_, ?_, ?_⟩
  · rw [dequePush_four_full _ hb _]
  · intro f0 hf0
    rw [hf0]
    rfl
  · intro pre f0 g0 hp
    rw [hp, lastTwo_append_pair]
    rfl

/-- Witness for C4: for the counting emulator the executed frames are [1],
[2], [3]; the aggregated frame max([2], [3]) = [3] evicts the oldest buffer
entry [10] and the returned state is the concatenation of the new buffer. -/
theorem dream_env_step_frame_aggregation_witness :
    ∃ r, DreamEnv.step cfgT sT 0 (some 5) = .ok r
      ∧ r.env.state_buffer = [[11], [12], [13], [3]]
      ∧ r.state = [11, 12, 13, 3] := by
  obtain ⟨r, h1, h2, h3, -⟩ :=
    dream_env_step_frame_aggregation cfgT sT 0 (some 5) [1] rfl (by decide) (by decide)
  refine ⟨r, h1, h2.trans ?_, h3.trans ?_⟩
  · norm_num [ticks, executedTicks, framesOf, lastTwo, stackMax, cfgT, sT]
  · norm_num [ticks, executedTicks, framesOf, lastTwo, stackMax, cfgT, sT]

/-- C10: the info component of a successful DreamEnv.step is always None:
the per-tick info values of the underlying environment are discarded by the
loop and never propagated. -/
theorem dream_env_step_info_none {E I : Type} (cfg : DreamEnvCfg E I)
    (s : DreamEnvState E) (action : Nat) (fsArg : Option Nat)
    (r : StepResult E I) (h : DreamEnv.step cfg s action fsArg = .ok r) :
    r.info = none := by
  rw [DreamEnv.step] at h
  split at h
  · exact absurd h (by simp)
  · dsimp only at h
    split at h
    · exact absurd h (by simp)
    · injection h with h2
      rw [← h2]

/-- Witness for C10: the concrete step of the counting emulator returns the
record rT, whose info component is None. -/
theorem dream_env_step_info_none_witness : rT.info = none :=
  dream_env_step_info_none cfgT sT 0 (some 5) rT (by
    rw [step_ok_eq cfgT sT 0 (some 5) [1] rfl (by decide)]
    norm_num [ticks, executedTicks, framesOf, lastTwo, stackMax, sumRewards,
      lastDoneD, lastEmuD, dequePush, cfgT, sT, rT])
